import Mathlib

/-!
# CGLIBoxApp: multi-box selection of lines (GLiboxmoth.h)

A shallow embedding of the template member function `CGLIBoxApp::isLineInBox`
and of the state it reads (`m_bIboxCulling`, `m_boxes`).

* `GLsizei` values are modelled as `Int`; the 32-bit signed range is made
  explicit with `chk`, and an out-of-range intermediate result is a fault.
* the buffer `const _T* pline` is `Option (List T)`: `none` is the null
  pointer, and reading outside the list is a fault.
* the element type `_T` is any type with an addition.
* `CIselbox::isInside` lives in `iselbox.h`; the containment predicate is a
  parameter `isInside` of the embedding.
-/

namespace CppGL

/-- Ways in which an evaluation of the embedded code can fail to produce a
value: the undefined behaviours of the C++ source, and fuel exhaustion of the
loop model. -/
inductive Fault where
  | divByZero
  | overflow
  | outOfBounds
  | outOfFuel
  deriving DecidableEq, Repr

deriving instance DecidableEq for Except

/-- Smallest value of a 32-bit signed integer (`GLsizei` is `int`). -/
def INT_MIN : Int := -2147483648

/-- Largest value of a 32-bit signed integer (`GLsizei` is `int`). -/
def INT_MAX : Int := 2147483647

/-- Result of a signed 32-bit operation whose mathematical value is `x`:
signed overflow is a fault. -/
def chk (x : Int) : Except Fault Int :=
  if INT_MIN ≤ x ∧ x ≤ INT_MAX then .ok x else .error .overflow

/-- C integer division `a / b` on `int`: truncates toward zero; division by
zero and `INT_MIN / -1` are faults. -/
def sdiv (a b : Int) : Except Fault Int :=
  if b = 0 then .error .divByZero
  else if a = INT_MIN ∧ b = -1 then .error .overflow
  else .ok (Int.tdiv a b)

/-- The subscript expression `j*unit+offset+k` of `isLineInBox`, evaluated
left to right in `int` arithmetic. -/
def vertexIndex (j unit offset k : Int) : Except Fault Int := do
  let a ← chk (j * unit)
  let b ← chk (a + offset)
  chk (b + k)

/-- Reading `pline[i]` from a buffer holding the elements of `buf`. -/
def readAt {T : Type} (buf : List T) (i : Int) : Option T :=
  if 0 ≤ i then buf[i.toNat]? else none

/-- The read `pline[j*unit+offset+k]`. -/
def readElem {T : Type} (buf : List T) (j unit offset k : Int) : Except Fault T := do
  let i ← vertexIndex j unit offset k
  match readAt buf i with
  | some x => .ok x
  | none => .error .outOfBounds

/-- The state of a `CGLIBoxApp` that `isLineInBox` reads. -/
structure CGLIBoxApp (Box : Type) where
  /-- Field `m_bIboxCulling`: switch of the culling function. -/
  m_bIboxCulling : Bool
  /-- Field `m_boxes`: the selection box store. -/
  m_boxes : List Box

/-- The inner loop `for (GLsizei j = ...; j < size/unit; j++)` of
`isLineInBox` for one box, started at `j`; the result is the final value of
`bCurBoxCover`. The bound `size/unit` is evaluated at every test of the loop
condition, as in the source. The increment `j++` is reached only with
`j < size/unit` and so cannot overflow; it carries no range check. The first
argument is the fuel of the loop model; `isLineInBox` supplies one more than
the number of vertices, which always suffices (`isLineInBox_ne_outOfFuel`). -/
def coverLoop {T Box : Type} [Add T] (isInside : Box → T → T → T → Bool) (box : Box)
    (buf : List T) (size unit offset : Int) (dx dy dz : T) :
    Nat → Int → Except Fault Bool
  | 0, _ => .error .outOfFuel
  | fuel + 1, j => do
    let q ← sdiv size unit
    if j < q then do
      let x ← readElem buf j unit offset 0
      let y ← readElem buf j unit offset 1
      let z ← readElem buf j unit offset 2
      if isInside box (x + dx) (y + dy) (z + dz) then
        .ok true
      else
        coverLoop isInside box buf size unit offset dx dy dz fuel (j + 1)
    else
      .ok false

/-- The outer loop `for (size_t idx = 0; idx < szBoxes; idx++)` of
`isLineInBox` over the boxes still to be visited. -/
def boxLoop {T Box : Type} [Add T] (isInside : Box → T → T → T → Bool)
    (buf : List T) (size unit offset : Int) (dx dy dz : T) (fuel : Nat) :
    List Box → Except Fault Bool
  | [] => .ok true
  | box :: rest => do
    let bCurBoxCover ← coverLoop isInside box buf size unit offset dx dy dz fuel 0
    if !bCurBoxCover then
      .ok false
    else
      boxLoop isInside buf size unit offset dx dy dz fuel rest

/-- The member function `CGLIBoxApp::isLineInBox`. -/
def isLineInBox {T Box : Type} [Add T] (isInside : Box → T → T → T → Bool)
    (app : CGLIBoxApp Box) (pline : Option (List T)) (size unit offset : Int)
    (dx dy dz : T) : Except Fault Bool :=
  if !app.m_bIboxCulling then
    .ok true
  else
    match pline with
    | none => .ok false
    | some buf =>
      if unit < 0 then
        .ok false
      else do
        let q ← sdiv size unit
        if q ≤ 0 then
          .ok false
        else
          boxLoop isInside buf size unit offset dx dy dz (q.toNat + 1) app.m_boxes

/-- Modelled from the spec: the selection volume `CIselbox` of `iselbox.h`,
which is not part of the sources at hand: an axis-aligned box given by its
minimal and maximal corner. -/
structure CIselbox where
  minx : ℚ
  miny : ℚ
  minz : ℚ
  maxx : ℚ
  maxy : ℚ
  maxz : ℚ

/-- Modelled from the spec: the point containment predicate
`CIselbox::isInside` of `iselbox.h`: the point lies between the two corners
on each axis (bounds included). -/
def CIselbox.isInside (b : CIselbox) (x y z : ℚ) : Bool :=
  decide (b.minx ≤ x ∧ x ≤ b.maxx ∧ b.miny ≤ y ∧ y ≤ b.maxy ∧ b.minz ≤ z ∧ z ≤ b.maxz)

/-- Modelled from the spec: the member function `CGLIBoxApp::isPointInBox`,
declared in `GLiboxmoth.h` and defined outside the sources at hand: the point
is inside at least one of the selection boxes. -/
def isPointInBox {T Box : Type} (isInside : Box → T → T → T → Bool)
    (app : CGLIBoxApp Box) (x y z : T) : Bool :=
  app.m_boxes.any (fun box => isInside box x y z)

/-- Vertex `j` of a line as the specification describes it: the triple
`pline[j*unit+offset+0..2]`, translated by `(dx,dy,dz)`; `none` when one of
the three elements does not exist. -/
def lineVertex {T : Type} [Add T] (buf : List T) (unit offset : Int) (dx dy dz : T)
    (j : Int) : Option (T × T × T) :=
  match readAt buf (j * unit + offset + 0), readAt buf (j * unit + offset + 1),
      readAt buf (j * unit + offset + 2) with
  | some x, some y, some z => some (x + dx, y + dy, z + dz)
  | _, _, _ => none

/-- The translated vertex `j` of the line is inside `box`. -/
def vertexInside {T Box : Type} [Add T] (isInside : Box → T → T → T → Bool) (box : Box)
    (buf : List T) (unit offset : Int) (dx dy dz : T) (j : Int) : Prop :=
  ∃ x y z, lineVertex buf unit offset dx dy dz j = some (x, y, z) ∧ isInside box x y z = true

/-- Some vertex `j` with `0 ≤ j < size/unit` of the line is inside `box`. -/
def boxCovers {T Box : Type} [Add T] (isInside : Box → T → T → T → Bool) (box : Box)
    (buf : List T) (size unit offset : Int) (dx dy dz : T) : Prop :=
  ∃ j : Int, 0 ≤ j ∧ j < Int.tdiv size unit ∧ vertexInside isInside box buf unit offset dx dy dz j

/-- One element of the translated buffer: the element at position `i` of a
whole vertex gets `dx`, `dy` or `dz` added when it is the first, second or
third coordinate of that vertex, and is kept otherwise. -/
def translateElem {T : Type} [Add T] (size unit offset : Int) (dx dy dz : T)
    (i : Nat) (x : T) : T :=
  if (i : Int) / unit < Int.tdiv size unit then
    if (i : Int) % unit = offset then x + dx
    else if (i : Int) % unit = offset + 1 then x + dy
    else if (i : Int) % unit = offset + 2 then x + dz
    else x
  else x

/-- The buffer `pline` with `(dx,dy,dz)` added to the three coordinates of
every vertex, as the specification describes the translation; a null buffer
stays null. -/
def translateLine {T : Type} [Add T] (size unit offset : Int) (dx dy dz : T)
    (pline : Option (List T)) : Option (List T) :=
  pline.map (fun buf => buf.mapIdx (translateElem size unit offset dx dy dz))

/-! ## Arithmetic of the guard and of the subscripts -/

theorem sdiv_of_pos (size unit : Int) (h : 0 < unit) :
    sdiv size unit = .ok (Int.tdiv size unit) := by
  unfold sdiv
  rw [if_neg (by omega), if_neg (by omega)]

theorem sdiv_zero (size : Int) : sdiv size 0 = .error .divByZero := by
  simp [sdiv]

theorem tdiv_pos_imp_nonneg (size unit : Int) (hu : 0 < unit) (hq : 0 < Int.tdiv size unit) :
    0 ≤ size := by
  by_contra hneg
  have h1 : 0 ≤ Int.tdiv (-size) unit := Int.tdiv_nonneg (by omega) (by omega)
  rw [Int.neg_tdiv] at h1
  omega

theorem tdiv_mul_le (size unit : Int) (hu : 0 < unit) (hs : 0 ≤ size) :
    Int.tdiv size unit * unit ≤ size := by
  rw [Int.tdiv_eq_ediv hs (by omega)]
  exact Int.ediv_mul_le size (by omega)

/-- Bounds of the subscripts of a whole vertex. -/
theorem index_bounds (size unit offset j k : Int) (hunit : 3 ≤ unit) (hoff0 : 0 ≤ offset)
    (hoff : offset ≤ unit - 3) (hj0 : 0 ≤ j) (hj : j < Int.tdiv size unit)
    (hk0 : 0 ≤ k) (hk : k ≤ 2) :
    0 ≤ j * unit ∧ j * unit ≤ size ∧ j * unit + offset ≤ size ∧
      0 ≤ j * unit + offset + k ∧ j * unit + offset + k < size := by
  have hs : 0 ≤ size := tdiv_pos_imp_nonneg size unit (by omega) (by omega)
  have h1 : Int.tdiv size unit * unit ≤ size := tdiv_mul_le size unit (by omega) hs
  have h2 : (j + 1) * unit ≤ Int.tdiv size unit * unit :=
    Int.mul_le_mul_of_nonneg_right (by omega) (by omega)
  have h3 : 0 ≤ j * unit := Int.mul_nonneg hj0 (by omega)
  have h4 : (j + 1) * unit = j * unit + unit := by ring
  refine ⟨h3, ?_, ?_, ?_, ?_⟩ <;> omega

theorem chk_ok (x : Int) (h0 : 0 ≤ x) (h1 : x ≤ INT_MAX) : chk x = .ok x := by
  unfold chk
  rw [if_pos]
  exact ⟨by unfold INT_MIN; omega, h1⟩

theorem vertexIndex_ok (size unit offset j k : Int) (hsize : size ≤ INT_MAX) (hunit : 3 ≤ unit)
    (hoff0 : 0 ≤ offset) (hoff : offset ≤ unit - 3) (hj0 : 0 ≤ j)
    (hj : j < Int.tdiv size unit) (hk0 : 0 ≤ k) (hk : k ≤ 2) :
    vertexIndex j unit offset k = .ok (j * unit + offset + k) := by
  obtain ⟨h1, h2, h3, h4, h5⟩ := index_bounds size unit offset j k hunit hoff0 hoff hj0 hj hk0 hk
  unfold vertexIndex
  rw [chk_ok (j * unit) h1 (by omega)]
  show (do let b ← chk (j * unit + offset); chk (b + k)) = _
  rw [chk_ok (j * unit + offset) (by omega) (by omega)]
  show chk (j * unit + offset + k) = _
  exact chk_ok _ h4 (by omega)

theorem readAt_isSome {T : Type} (buf : List T) (i : Int) (h0 : 0 ≤ i) (h1 : i < buf.length) :
    ∃ x, readAt buf i = some x := by
  unfold readAt
  rw [if_pos h0]
  have h : i.toNat < buf.length := by omega
  exact ⟨buf[i.toNat], List.getElem?_eq_getElem h⟩

theorem readElem_ok {T : Type} (buf : List T) (size unit offset j k : Int)
    (hsize : size ≤ INT_MAX) (hlen : size ≤ buf.length) (hunit : 3 ≤ unit)
    (hoff0 : 0 ≤ offset) (hoff : offset ≤ unit - 3) (hj0 : 0 ≤ j)
    (hj : j < Int.tdiv size unit) (hk0 : 0 ≤ k) (hk : k ≤ 2) :
    ∃ x, readAt buf (j * unit + offset + k) = some x ∧ readElem buf j unit offset k = .ok x := by
  obtain ⟨h1, h2, h3, h4, h5⟩ := index_bounds size unit offset j k hunit hoff0 hoff hj0 hj hk0 hk
  obtain ⟨x, hx⟩ := readAt_isSome buf (j * unit + offset + k) h4 (by omega)
  refine ⟨x, hx, ?_⟩
  unfold readElem
  rw [vertexIndex_ok size unit offset j k hsize hunit hoff0 hoff hj0 hj hk0 hk]
  show (match readAt buf (j * unit + offset + k) with
    | some x => Except.ok x
    | none => Except.error Fault.outOfBounds) = _
  rw [hx]

/-! ## The two loops -/

/-- The three reads of one iteration succeed on a well-formed line and yield
the vertex of the specification. -/
theorem readVertex_ok {T : Type} [Add T] (buf : List T) (size unit offset j : Int) (dx dy dz : T)
    (hsize : size ≤ INT_MAX) (hlen : size ≤ buf.length) (hunit : 3 ≤ unit)
    (hoff0 : 0 ≤ offset) (hoff : offset ≤ unit - 3) (hj0 : 0 ≤ j)
    (hj : j < Int.tdiv size unit) :
    ∃ x y z, readElem buf j unit offset 0 = .ok x ∧ readElem buf j unit offset 1 = .ok y ∧
      readElem buf j unit offset 2 = .ok z ∧
      lineVertex buf unit offset dx dy dz j = some (x + dx, y + dy, z + dz) := by
  obtain ⟨x, hx, hx2⟩ := readElem_ok buf size unit offset j 0 hsize hlen hunit hoff0 hoff hj0 hj
    (by omega) (by omega)
  obtain ⟨y, hy, hy2⟩ := readElem_ok buf size unit offset j 1 hsize hlen hunit hoff0 hoff hj0 hj
    (by omega) (by omega)
  obtain ⟨z, hz, hz2⟩ := readElem_ok buf size unit offset j 2 hsize hlen hunit hoff0 hoff hj0 hj
    (by omega) (by omega)
  refine ⟨x, y, z, hx2, hy2, hz2, ?_⟩
  unfold lineVertex
  rw [hx, hy, hz]

/-- The inner loop on a well-formed line: it returns, and `bCurBoxCover` is
true exactly when a vertex from `j` on is inside the box. -/
theorem coverLoop_spec {T Box : Type} [Add T] (isInside : Box → T → T → T → Bool) (box : Box)
    (buf : List T) (size unit offset : Int) (dx dy dz : T)
    (hsize : size ≤ INT_MAX) (hlen : size ≤ buf.length) (hunit : 3 ≤ unit)
    (hoff0 : 0 ≤ offset) (hoff : offset ≤ unit - 3) :
    ∀ (fuel : Nat) (j : Int), 0 ≤ j → (Int.tdiv size unit - j).toNat < fuel →
      ∃ b, coverLoop isInside box buf size unit offset dx dy dz fuel j = .ok b ∧
        (b = true ↔ ∃ i : Int, j ≤ i ∧ i < Int.tdiv size unit ∧
          vertexInside isInside box buf unit offset dx dy dz i) := by
  intro fuel
  induction fuel with
  | zero => intro j _ h; omega
  | succ fuel ih =>
    intro j hj0 hfuel
    unfold coverLoop
    rw [sdiv_of_pos size unit (by omega)]
    show ∃ b, (if j < Int.tdiv size unit then _ else _) = _ ∧ _
    by_cases hj : j < Int.tdiv size unit
    · rw [if_pos hj]
      obtain ⟨x, y, z, hx, hy, hz, hv⟩ :=
        readVertex_ok buf size unit offset j dx dy dz hsize hlen hunit hoff0 hoff hj0 hj
      rw [hx, hy, hz]
      show ∃ b, (if isInside box (x + dx) (y + dy) (z + dz) = true then _ else _) = _ ∧ _
      by_cases hin : isInside box (x + dx) (y + dy) (z + dz) = true
      · rw [if_pos hin]
        exact ⟨true, rfl, fun _ => ⟨j, le_refl j, hj, _, _, _, hv, hin⟩, fun _ => rfl⟩
      · rw [if_neg hin]
        obtain ⟨b, hb, hiff⟩ := ih (j + 1) (by omega) (by omega)
        refine ⟨b, hb, ?_⟩
        rw [hiff]
        constructor
        · rintro ⟨i, hi1, hi2, hi3⟩
          exact ⟨i, by omega, hi2, hi3⟩
        · rintro ⟨i, hi1, hi2, hi3⟩
          refine ⟨i, ?_, hi2, hi3⟩
          by_contra hne
          have hij : i = j := by omega
          subst hij
          obtain ⟨a, b', c, habc, hin2⟩ := hi3
          rw [hv] at habc
          simp only [Option.some.injEq, Prod.mk.injEq] at habc
          obtain ⟨h1, h2, h3⟩ := habc
          subst h1 h2 h3
          exact hin hin2
    · rw [if_neg hj]
      refine ⟨false, rfl, ?_⟩
      constructor
      · intro h; cases h
      · rintro ⟨i, hi1, hi2, _⟩; omega

/-- The outer loop on a well-formed line: it returns, and the result is true
exactly when every box still to be visited is covered. -/
theorem boxLoop_spec {T Box : Type} [Add T] (isInside : Box → T → T → T → Bool)
    (buf : List T) (size unit offset : Int) (dx dy dz : T) (fuel : Nat)
    (hsize : size ≤ INT_MAX) (hlen : size ≤ buf.length) (hunit : 3 ≤ unit)
    (hoff0 : 0 ≤ offset) (hoff : offset ≤ unit - 3)
    (hfuel : (Int.tdiv size unit).toNat < fuel) :
    ∀ boxes : List Box,
      ∃ b, boxLoop isInside buf size unit offset dx dy dz fuel boxes = .ok b ∧
        (b = true ↔ ∀ box ∈ boxes, boxCovers isInside box buf size unit offset dx dy dz) := by
  intro boxes
  induction boxes with
  | nil => exact ⟨true, rfl, by simp⟩
  | cons box rest ih =>
    obtain ⟨c, hc, hciff⟩ := coverLoop_spec isInside box buf size unit offset dx dy dz
      hsize hlen hunit hoff0 hoff fuel 0 (le_refl 0) (by simpa using hfuel)
    unfold boxLoop
    rw [hc]
    show ∃ b, (if (!c) = true then _ else _) = _ ∧ _
    cases c with
    | false =>
      refine ⟨false, rfl, ?_⟩
      constructor
      · intro h; cases h
      · intro h
        exact hciff.2 (h box (List.mem_cons_self _ _))
    | true =>
      obtain ⟨b, hb, hiff⟩ := ih
      refine ⟨b, hb, ?_⟩
      rw [hiff]
      constructor
      · intro h box' hmem
        rcases List.mem_cons.1 hmem with rfl | hmem
        · exact hciff.1 rfl
        · exact h box' hmem
      · intro h box' hmem
        exact h box' (List.mem_cons_of_mem _ hmem)

/-- The function on a well-formed line with culling enabled: it returns, and
the result is true exactly when every box of the store is covered. -/
theorem isLineInBox_spec {T Box : Type} [Add T] (isInside : Box → T → T → T → Bool)
    (boxes : List Box) (buf : List T) (size unit offset : Int) (dx dy dz : T)
    (hsize : size ≤ INT_MAX) (hlen : size ≤ buf.length) (hunit : 3 ≤ unit)
    (hoff0 : 0 ≤ offset) (hoff : offset ≤ unit - 3) (hq : 1 ≤ Int.tdiv size unit) :
    ∃ b, isLineInBox isInside ⟨true, boxes⟩ (some buf) size unit offset dx dy dz = .ok b ∧
      (b = true ↔ ∀ box ∈ boxes, boxCovers isInside box buf size unit offset dx dy dz) := by
  obtain ⟨b, hb, hiff⟩ := boxLoop_spec isInside buf size unit offset dx dy dz
    ((Int.tdiv size unit).toNat + 1) hsize hlen hunit hoff0 hoff (by omega) boxes
  refine ⟨b, ?_, hiff⟩
  unfold isLineInBox
  simp only [Bool.not_true, Bool.false_eq_true, if_false]
  rw [if_neg (by omega), sdiv_of_pos size unit (by omega)]
  show (if Int.tdiv size unit ≤ 0 then _ else _) = _
  rw [if_neg (by omega)]
  exact hb

/-! ## Adequacy of the fuel -/

theorem sdiv_ne_outOfFuel (a b : Int) : sdiv a b ≠ .error .outOfFuel := by
  unfold sdiv
  split
  · simp
  · split <;> simp

theorem chk_ne_outOfFuel (x : Int) : chk x ≠ .error .outOfFuel := by
  unfold chk
  split <;> simp

theorem readElem_ne_outOfFuel {T : Type} (buf : List T) (j unit offset k : Int) :
    readElem buf j unit offset k ≠ .error .outOfFuel := by
  unfold readElem vertexIndex
  cases h1 : chk (j * unit) with
  | error e =>
    have := chk_ne_outOfFuel (j * unit)
    rw [h1] at this
    simpa [bind, Except.bind] using this
  | ok a =>
    cases h2 : chk (a + offset) with
    | error e =>
      have := chk_ne_outOfFuel (a + offset)
      rw [h2] at this
      simpa [bind, Except.bind, h2] using this
    | ok b =>
      cases h3 : chk (b + k) with
      | error e =>
        have := chk_ne_outOfFuel (b + k)
        rw [h3] at this
        simpa [bind, Except.bind, h2, h3] using this
      | ok i =>
        simp only [bind, Except.bind, h2, h3]
        cases readAt buf i <;> simp

/-- The inner loop never runs out of fuel when started with more fuel than
iterations left. -/
theorem coverLoop_ne_outOfFuel {T Box : Type} [Add T] (isInside : Box → T → T → T → Bool)
    (box : Box) (buf : List T) (size unit offset : Int) (dx dy dz : T) :
    ∀ (fuel : Nat) (j : Int), 0 < fuel →
      (∀ q, sdiv size unit = .ok q → (q - j).toNat < fuel) →
      coverLoop isInside box buf size unit offset dx dy dz fuel j ≠ .error .outOfFuel := by
  intro fuel
  induction fuel with
  | zero => intro j h; omega
  | succ fuel ih =>
    intro j _ hfuel
    unfold coverLoop
    cases hq : sdiv size unit with
    | error e =>
      have := sdiv_ne_outOfFuel size unit
      rw [hq] at this
      simpa [bind, Except.bind] using this
    | ok q =>
      have hf := hfuel q hq
      simp only [bind, Except.bind]
      by_cases hj : j < q
      · rw [if_pos hj]
        have hx := readElem_ne_outOfFuel buf j unit offset 0
        have hy := readElem_ne_outOfFuel buf j unit offset 1
        have hz := readElem_ne_outOfFuel buf j unit offset 2
        cases hrx : readElem buf j unit offset 0 with
        | error e => rw [hrx] at hx; simpa using hx
        | ok x =>
          cases hry : readElem buf j unit offset 1 with
          | error e => rw [hry] at hy; simpa using hy
          | ok y =>
            cases hrz : readElem buf j unit offset 2 with
            | error e => rw [hrz] at hz; simpa using hz
            | ok z =>
              by_cases hin : isInside box (x + dx) (y + dy) (z + dz) = true
              · simp [hin]
              · simp only [hin, if_false, Bool.false_eq_true]
                refine ih (j + 1) (by omega) ?_
                intro q' hq'
                rw [hq] at hq'
                injection hq' with hq'
                omega
      · rw [if_neg hj]
        simp

theorem boxLoop_ne_outOfFuel {T Box : Type} [Add T] (isInside : Box → T → T → T → Bool)
    (buf : List T) (size unit offset : Int) (dx dy dz : T) (fuel : Nat) (hpos : 0 < fuel)
    (hfuel : ∀ q, sdiv size unit = .ok q → q.toNat < fuel) :
    ∀ boxes : List Box,
      boxLoop isInside buf size unit offset dx dy dz fuel boxes ≠ .error .outOfFuel := by
  intro boxes
  induction boxes with
  | nil => simp [boxLoop]
  | cons box rest ih =>
    unfold boxLoop
    have hc := coverLoop_ne_outOfFuel isInside box buf size unit offset dx dy dz fuel 0 hpos
      (fun q hq => by simpa using hfuel q hq)
    cases hcl : coverLoop isInside box buf size unit offset dx dy dz fuel 0 with
    | error e => rw [hcl] at hc; simpa [bind, Except.bind] using hc
    | ok c =>
      cases c with
      | false => simp [bind, Except.bind]
      | true => simpa [bind, Except.bind] using ih

/-- The fuel that `isLineInBox` gives to its loops always suffices: the loop
model never cuts an evaluation short. -/
theorem isLineInBox_ne_outOfFuel {T Box : Type} [Add T] (isInside : Box → T → T → T → Bool)
    (app : CGLIBoxApp Box) (pline : Option (List T)) (size unit offset : Int) (dx dy dz : T) :
    isLineInBox isInside app pline size unit offset dx dy dz ≠ .error .outOfFuel := by
  unfold isLineInBox
  split
  · simp
  · cases pline with
    | none => simp
    | some buf =>
      simp only
      split
      · simp
      · cases hq : sdiv size unit with
        | error e =>
          have := sdiv_ne_outOfFuel size unit
          rw [hq] at this
          simpa [bind, Except.bind] using this
        | ok q =>
          simp only [bind, Except.bind]
          split
          · simp
          · refine boxLoop_ne_outOfFuel isInside buf size unit offset dx dy dz _ (by omega) ?_ _
            intro q' hq'
            rw [hq] at hq'
            injection hq' with hq'
            omega

/-! ## Translation of the buffer -/

theorem vertexIndex_eq (j unit offset k i : Int) (h : vertexIndex j unit offset k = .ok i) :
    i = j * unit + offset + k := by
  unfold vertexIndex chk at h
  by_cases h1 : INT_MIN ≤ j * unit ∧ j * unit ≤ INT_MAX
  · rw [if_pos h1] at h
    by_cases h2 : INT_MIN ≤ j * unit + offset ∧ j * unit + offset ≤ INT_MAX
    · by_cases h3 : INT_MIN ≤ j * unit + offset + k ∧ j * unit + offset + k ≤ INT_MAX
      · simp [bind, Except.bind, h2, h3] at h
        exact h.symm
      · simp [bind, Except.bind, h2, h3] at h
    · simp [bind, Except.bind, h2] at h
  · rw [if_neg h1] at h
    simp [bind, Except.bind] at h

/-- Position `j*unit+offset+k` is coordinate `k` of the whole vertex `j`. -/
theorem translateElem_at {T : Type} [Add T] (size unit offset j k : Int) (dx dy dz x : T)
    (hunit : 3 ≤ unit) (hoff0 : 0 ≤ offset) (hoff : offset ≤ unit - 3) (hj0 : 0 ≤ j)
    (hj : j < Int.tdiv size unit) (hk0 : 0 ≤ k) (hk : k ≤ 2) :
    translateElem size unit offset dx dy dz (j * unit + offset + k).toNat x =
      if k = 0 then x + dx else if k = 1 then x + dy else x + dz := by
  have h0 : 0 ≤ j * unit := Int.mul_nonneg hj0 (by omega)
  have hcast : (((j * unit + offset + k).toNat : Nat) : Int) = (offset + k) + j * unit := by
    rw [Int.toNat_of_nonneg (by omega)]; ring
  have hdiv : ((offset + k) + j * unit) / unit = j := by
    rw [Int.add_mul_ediv_right _ _ (by omega), Int.ediv_eq_zero_of_lt (by omega) (by omega)]
    omega
  have hmod : ((offset + k) + j * unit) % unit = offset + k := by
    rw [Int.add_mul_emod_self, Int.emod_eq_of_lt (by omega) (by omega)]
  unfold translateElem
  rw [hcast, hdiv, hmod, if_pos hj]
  have hk3 : k = 0 ∨ k = 1 ∨ k = 2 := by omega
  rcases hk3 with rfl | rfl | rfl
  · simp
  · simp
  · simp

theorem readAt_translate {T : Type} [Add T] (buf : List T) (size unit offset j k : Int)
    (dx dy dz : T) (hunit : 3 ≤ unit) (hoff0 : 0 ≤ offset) (hoff : offset ≤ unit - 3)
    (hj0 : 0 ≤ j) (hj : j < Int.tdiv size unit) (hk0 : 0 ≤ k) (hk : k ≤ 2) :
    readAt (buf.mapIdx (translateElem size unit offset dx dy dz)) (j * unit + offset + k) =
      (readAt buf (j * unit + offset + k)).map
        (fun x => if k = 0 then x + dx else if k = 1 then x + dy else x + dz) := by
  have h0 : 0 ≤ j * unit := Int.mul_nonneg hj0 (by omega)
  unfold readAt
  rw [if_pos (by omega), if_pos (by omega), List.getElem?_mapIdx]
  cases buf[(j * unit + offset + k).toNat]? with
  | none => rfl
  | some x =>
    simp only [Option.map_some']
    rw [translateElem_at size unit offset j k dx dy dz x hunit hoff0 hoff hj0 hj hk0 hk]

theorem readElem_translate {T : Type} [Add T] (buf : List T) (size unit offset j k : Int)
    (dx dy dz : T) (hunit : 3 ≤ unit) (hoff0 : 0 ≤ offset) (hoff : offset ≤ unit - 3)
    (hj0 : 0 ≤ j) (hj : j < Int.tdiv size unit) (hk0 : 0 ≤ k) (hk : k ≤ 2) :
    readElem (buf.mapIdx (translateElem size unit offset dx dy dz)) j unit offset k =
      (readElem buf j unit offset k).map
        (fun x => if k = 0 then x + dx else if k = 1 then x + dy else x + dz) := by
  unfold readElem
  cases hi : vertexIndex j unit offset k with
  | error e => rfl
  | ok i =>
    have hieq := vertexIndex_eq j unit offset k i hi
    subst hieq
    simp only [bind, Except.bind]
    rw [readAt_translate buf size unit offset j k dx dy dz hunit hoff0 hoff hj0 hj hk0 hk]
    cases readAt buf (j * unit + offset + k) with
    | none => rfl
    | some x => rfl

theorem coverLoop_translate {T Box : Type} [AddZeroClass T] (isInside : Box → T → T → T → Bool)
    (box : Box) (buf : List T) (size unit offset : Int) (dx dy dz : T)
    (hunit : 3 ≤ unit) (hoff0 : 0 ≤ offset) (hoff : offset ≤ unit - 3) :
    ∀ (fuel : Nat) (j : Int), 0 ≤ j →
      coverLoop isInside box buf size unit offset dx dy dz fuel j =
        coverLoop isInside box (buf.mapIdx (translateElem size unit offset dx dy dz))
          size unit offset 0 0 0 fuel j := by
  intro fuel
  induction fuel with
  | zero => intro j _; rfl
  | succ fuel ih =>
    intro j hj0
    unfold coverLoop
    rw [sdiv_of_pos size unit (by omega)]
    simp only [bind, Except.bind]
    by_cases hj : j < Int.tdiv size unit
    · rw [if_pos hj, if_pos hj,
        readElem_translate buf size unit offset j 0 dx dy dz hunit hoff0 hoff hj0 hj
          (by omega) (by omega),
        readElem_translate buf size unit offset j 1 dx dy dz hunit hoff0 hoff hj0 hj
          (by omega) (by omega),
        readElem_translate buf size unit offset j 2 dx dy dz hunit hoff0 hoff hj0 hj
          (by omega) (by omega)]
      cases readElem buf j unit offset 0 with
      | error e => rfl
      | ok x =>
        cases readElem buf j unit offset 1 with
        | error e => rfl
        | ok y =>
          cases readElem buf j unit offset 2 with
          | error e => rfl
          | ok z =>
            simp only [Except.map, if_true, if_false, one_ne_zero, OfNat.ofNat_ne_zero,
              OfNat.ofNat_ne_one, add_zero]
            rw [ih (j + 1) (by omega)]
    · rw [if_neg hj, if_neg hj]

theorem boxLoop_translate {T Box : Type} [AddZeroClass T] (isInside : Box → T → T → T → Bool)
    (buf : List T) (size unit offset : Int) (dx dy dz : T) (fuel : Nat)
    (hunit : 3 ≤ unit) (hoff0 : 0 ≤ offset) (hoff : offset ≤ unit - 3) :
    ∀ boxes : List Box,
      boxLoop isInside buf size unit offset dx dy dz fuel boxes =
        boxLoop isInside (buf.mapIdx (translateElem size unit offset dx dy dz))
          size unit offset 0 0 0 fuel boxes := by
  intro boxes
  induction boxes with
  | nil => rfl
  | cons box rest ih =>
    unfold boxLoop
    rw [coverLoop_translate isInside box buf size unit offset dx dy dz hunit hoff0 hoff fuel 0
      (le_refl 0), ih]

theorem isLineInBox_translate {T Box : Type} [AddZeroClass T]
    (isInside : Box → T → T → T → Bool) (app : CGLIBoxApp Box) (pline : Option (List T))
    (size unit offset : Int) (dx dy dz : T)
    (hunit : 3 ≤ unit) (hoff0 : 0 ≤ offset) (hoff : offset ≤ unit - 3) :
    isLineInBox isInside app pline size unit offset dx dy dz =
      isLineInBox isInside app (translateLine size unit offset dx dy dz pline)
        size unit offset 0 0 0 := by
  unfold isLineInBox translateLine
  cases pline with
  | none => rfl
  | some buf =>
    simp only [Option.map_some']
    rw [sdiv_of_pos size unit (by omega)]
    simp only [bind, Except.bind]
    rw [boxLoop_translate isInside buf size unit offset dx dy dz _ hunit hoff0 hoff]

/-- With the default translation the vertex of the specification is the
triple stored in the buffer. -/
theorem lineVertex_zero {T : Type} [AddZeroClass T] (buf : List T) (unit offset j : Int)
    (x y z : T) :
    lineVertex buf unit offset 0 0 0 j = some (x, y, z) ↔
      readAt buf (j * unit + offset + 0) = some x ∧ readAt buf (j * unit + offset + 1) = some y ∧
        readAt buf (j * unit + offset + 2) = some z := by
  unfold lineVertex
  cases readAt buf (j * unit + offset + 0) with
  | none => simp
  | some a =>
    cases readAt buf (j * unit + offset + 1) with
    | none => simp
    | some b =>
      cases readAt buf (j * unit + offset + 2) with
      | none => simp
      | some c => simp

/-! ## The claims -/

/-- C1: multi-box AND rule. With culling enabled, a non-null buffer holding
at least `size` elements (`size` a 32-bit value), `unit ≥ 3`,
`0 ≤ offset ≤ unit-3` and `size/unit ≥ 1`, `isLineInBox` returns true if and
only if every box of the store contains the translated vertex `j` for some
`0 ≤ j < size/unit`, and returns false otherwise. In particular, with the
store `[B1, B2]`, a line with a vertex inside `B1` and none inside `B2` is
rejected, and a line with a vertex inside `B1` and a vertex inside `B2` is
accepted. -/
theorem isLineInBox_multi_box_and {T Box : Type} [Add T] (isInside : Box → T → T → T → Bool)
    (boxes : List Box) (buf : List T) (size unit offset : Int) (dx dy dz : T)
    (hsize : size ≤ INT_MAX) (hlen : size ≤ buf.length) (hunit : 3 ≤ unit)
    (hoff0 : 0 ≤ offset) (hoff : offset ≤ unit - 3) (hq : 1 ≤ Int.tdiv size unit) :
    (isLineInBox isInside ⟨true, boxes⟩ (some buf) size unit offset dx dy dz = .ok true ↔
        ∀ box ∈ boxes, ∃ j : Int, 0 ≤ j ∧ j < Int.tdiv size unit ∧
          vertexInside isInside box buf unit offset dx dy dz j) ∧
    (isLineInBox isInside ⟨true, boxes⟩ (some buf) size unit offset dx dy dz = .ok false ↔
        ¬ ∀ box ∈ boxes, ∃ j : Int, 0 ≤ j ∧ j < Int.tdiv size unit ∧
          vertexInside isInside box buf unit offset dx dy dz j) ∧
    (∀ B1 B2 : Box, boxes = [B1, B2] →
        boxCovers isInside B1 buf size unit offset dx dy dz →
        ¬ boxCovers isInside B2 buf size unit offset dx dy dz →
        isLineInBox isInside ⟨true, boxes⟩ (some buf) size unit offset dx dy dz = .ok false) ∧
    (∀ B1 B2 : Box, boxes = [B1, B2] →
        boxCovers isInside B1 buf size unit offset dx dy dz →
        boxCovers isInside B2 buf size unit offset dx dy dz →
        isLineInBox isInside ⟨true, boxes⟩ (some buf) size unit offset dx dy dz = .ok true) := by
  obtain ⟨b, hb, hiff⟩ := isLineInBox_spec isInside boxes buf size unit offset dx dy dz
    hsize hlen hunit hoff0 hoff hq
  have htrue : isLineInBox isInside ⟨true, boxes⟩ (some buf) size unit offset dx dy dz = .ok true ↔
      ∀ box ∈ boxes, boxCovers isInside box buf size unit offset dx dy dz := by
    rw [hb, ← hiff]
    constructor
    · intro h; injection h
    · intro h; rw [h]
  have hfalse : isLineInBox isInside ⟨true, boxes⟩ (some buf) size unit offset dx dy dz = .ok false ↔
      ¬ ∀ box ∈ boxes, boxCovers isInside box buf size unit offset dx dy dz := by
    rw [hb, ← hiff]
    constructor
    · intro h; injection h with h; rw [h]; simp
    · intro h; cases b with
      | false => rfl
      | true => exact absurd rfl h
  refine ⟨htrue, hfalse, ?_, ?_⟩
  · intro B1 B2 hst _ h2
    exact hfalse.2 (fun hall => h2 (hall B2 (by rw [hst]; simp)))
  · intro B1 B2 hst h1 h2
    refine htrue.2 (fun box hmem => ?_)
    rw [hst] at hmem
    simp only [List.mem_cons, List.mem_singleton, List.not_mem_nil, or_false] at hmem
    rcases hmem with rfl | rfl
    · exact h1
    · exact h2

theorem isLineInBox_multi_box_and_witness :
    ((6 : Int) ≤ INT_MAX ∧
      (6 : Int) ≤ ([1, 1, 1, 17 / 2, 17 / 2, 17 / 2] : List ℚ).length ∧
      (3 : Int) ≤ 3 ∧ (0 : Int) ≤ 0 ∧ (0 : Int) ≤ 3 - 3 ∧ 1 ≤ Int.tdiv 6 3) ∧
    (isLineInBox CIselbox.isInside ⟨true, [⟨0, 0, 0, 2, 2, 2⟩, ⟨8, 8, 8, 9, 9, 9⟩]⟩
        (some [1, 1, 1, 17 / 2, 17 / 2, 17 / 2]) 6 3 0 0 0 0 = .ok true ↔
      ∀ box ∈ ([⟨0, 0, 0, 2, 2, 2⟩, ⟨8, 8, 8, 9, 9, 9⟩] : List CIselbox),
        ∃ j : Int, 0 ≤ j ∧ j < Int.tdiv 6 3 ∧
          vertexInside CIselbox.isInside box [1, 1, 1, 17 / 2, 17 / 2, 17 / 2] 3 0 0 0 0 j) :=
  ⟨⟨by decide, by decide, by decide, by decide, by decide, by decide⟩,
    (isLineInBox_multi_box_and CIselbox.isInside [⟨0, 0, 0, 2, 2, 2⟩, ⟨8, 8, 8, 9, 9, 9⟩]
      [1, 1, 1, 17 / 2, 17 / 2, 17 / 2] 6 3 0 0 0 0
      (by decide) (by decide) (by decide) (by decide) (by decide) (by decide)).1⟩

/-- C2: culling bypass. When `m_bIboxCulling` is off, `isLineInBox` returns
true for every store, every buffer (null included) and every `size`, `unit`,
`offset` and translation: no validation and no division takes place. -/
theorem isLineInBox_culling_off {T Box : Type} [Add T] (isInside : Box → T → T → T → Bool)
    (boxes : List Box) (pline : Option (List T)) (size unit offset : Int) (dx dy dz : T) :
    isLineInBox isInside ⟨false, boxes⟩ pline size unit offset dx dy dz = .ok true := by
  rfl

/-- C3: degenerate input rejection. With culling enabled, `isLineInBox`
returns false for every store when the buffer is null, or `unit` is negative,
or `unit` is nonzero and `size/unit ≤ 0` (truncating division). -/
theorem isLineInBox_degenerate {T Box : Type} [Add T] (isInside : Box → T → T → T → Bool)
    (boxes : List Box) (pline : Option (List T)) (size unit offset : Int) (dx dy dz : T)
    (h : pline = none ∨ unit < 0 ∨ (unit ≠ 0 ∧ Int.tdiv size unit ≤ 0)) :
    isLineInBox isInside ⟨true, boxes⟩ pline size unit offset dx dy dz = .ok false := by
  unfold isLineInBox
  simp only [Bool.not_true, Bool.false_eq_true, if_false]
  cases pline with
  | none => rfl
  | some buf =>
    show (if unit < 0 then _ else _) = _
    by_cases hneg : unit < 0
    · rw [if_pos hneg]
    · rw [if_neg hneg]
      rcases h with h | h | ⟨hne, hq⟩
      · cases h
      · exact absurd h hneg
      · rw [sdiv_of_pos size unit (by omega)]
        show (if Int.tdiv size unit ≤ 0 then _ else _) = _
        rw [if_pos hq]

theorem isLineInBox_degenerate_witness :
    isLineInBox CIselbox.isInside ⟨true, [⟨0, 0, 0, 4, 4, 4⟩]⟩ none 9 3 0 0 0 0 = .ok false ∧
    isLineInBox CIselbox.isInside ⟨true, [⟨0, 0, 0, 4, 4, 4⟩]⟩ (some [1, 1, 1]) 3 (-3) 0 0 0 0 =
      .ok false ∧
    ((3 : Int) ≠ 0 ∧ Int.tdiv 2 3 ≤ 0) ∧
    isLineInBox CIselbox.isInside ⟨true, []⟩ (some [1, 1]) 2 3 0 0 0 0 = .ok false :=
  ⟨isLineInBox_degenerate _ _ none 9 3 0 0 0 0 (Or.inl rfl),
    isLineInBox_degenerate _ _ (some [1, 1, 1]) 3 (-3) 0 0 0 0 (Or.inr (Or.inl (by decide))),
    by decide,
    isLineInBox_degenerate _ _ (some [1, 1]) 2 3 0 0 0 0 (Or.inr (Or.inr (by decide)))⟩

/-- C4: empty store. With culling enabled, a non-null buffer, `unit > 0` and
`size/unit ≥ 1`, `isLineInBox` on a store without boxes returns true, for
every buffer content, offset and translation. -/
theorem isLineInBox_empty_store {T Box : Type} [Add T] (isInside : Box → T → T → T → Bool)
    (buf : List T) (size unit offset : Int) (dx dy dz : T)
    (hunit : 0 < unit) (hq : 1 ≤ Int.tdiv size unit) :
    isLineInBox isInside ⟨true, []⟩ (some buf) size unit offset dx dy dz = .ok true := by
  unfold isLineInBox
  simp only [Bool.not_true, Bool.false_eq_true, if_false]
  rw [if_neg (by omega), sdiv_of_pos size unit hunit]
  show (if Int.tdiv size unit ≤ 0 then _ else _) = _
  rw [if_neg (by omega)]
  rfl

theorem isLineInBox_empty_store_witness :
    ((0 : Int) < 3 ∧ 1 ≤ Int.tdiv 9 3) ∧
    isLineInBox CIselbox.isInside ⟨true, []⟩ (some [0, 0, 0, 5, 5, 5, 9, 9, 9]) 9 3 0 0 0 0 =
      .ok true :=
  ⟨by decide,
    isLineInBox_empty_store CIselbox.isInside [0, 0, 0, 5, 5, 5, 9, 9, 9] 9 3 0 0 0 0
      (by decide) (by decide)⟩

/-- C5 (behaviour of the code at the failing input): with culling enabled and
a non-null buffer, a stride `unit` of zero passes the test `unit < 0` and the
guard then divides `size` by zero: the call does not yield a boolean. -/
theorem isLineInBox_zero_unit_faults {T Box : Type} [Add T] (isInside : Box → T → T → T → Bool)
    (boxes : List Box) (buf : List T) (size offset : Int) (dx dy dz : T) :
    isLineInBox isInside ⟨true, boxes⟩ (some buf) size 0 offset dx dy dz =
      .error .divByZero := by
  unfold isLineInBox
  simp only [Bool.not_true, Bool.false_eq_true, if_false]
  rw [if_neg (by omega), sdiv_zero]
  rfl

/-- C6: anti-monotonicity in the box store. For a well-formed line with
culling enabled: if `isLineInBox` returns true for a store, it returns true
for the store with the box at any index removed; and for the store with a
further box appended it returns true when some vertex of the line is inside
the appended box and false otherwise. Scenario: the boxes (0,0,0)-(2,2,2) and
(8,8,8)-(9,9,9) with the buffer [1,1,1, 8.5,8.5,8.5] give true; without the
second box the result is true; with the box (50,50,50)-(51,51,51) appended
after that it is false. -/
theorem isLineInBox_store_antitone {T Box : Type} [Add T] (isInside : Box → T → T → T → Bool)
    (boxes : List Box) (buf : List T) (size unit offset : Int) (dx dy dz : T)
    (hsize : size ≤ INT_MAX) (hlen : size ≤ buf.length) (hunit : 3 ≤ unit)
    (hoff0 : 0 ≤ offset) (hoff : offset ≤ unit - 3) (hq : 1 ≤ Int.tdiv size unit)
    (htrue : isLineInBox isInside ⟨true, boxes⟩ (some buf) size unit offset dx dy dz = .ok true) :
    (∀ idx : Nat,
        isLineInBox isInside ⟨true, boxes.eraseIdx idx⟩ (some buf) size unit offset dx dy dz =
          .ok true) ∧
    (∀ box : Box,
        ((∃ j : Int, 0 ≤ j ∧ j < Int.tdiv size unit ∧
            vertexInside isInside box buf unit offset dx dy dz j) →
          isLineInBox isInside ⟨true, boxes ++ [box]⟩ (some buf) size unit offset dx dy dz =
            .ok true) ∧
        ((¬ ∃ j : Int, 0 ≤ j ∧ j < Int.tdiv size unit ∧
            vertexInside isInside box buf unit offset dx dy dz j) →
          isLineInBox isInside ⟨true, boxes ++ [box]⟩ (some buf) size unit offset dx dy dz =
            .ok false)) ∧
    (isLineInBox CIselbox.isInside ⟨true, [⟨0, 0, 0, 2, 2, 2⟩, ⟨8, 8, 8, 9, 9, 9⟩]⟩
        (some [1, 1, 1, 17 / 2, 17 / 2, 17 / 2]) 6 3 0 0 0 0 = .ok true ∧
      isLineInBox CIselbox.isInside
        ⟨true, ([⟨0, 0, 0, 2, 2, 2⟩, ⟨8, 8, 8, 9, 9, 9⟩] : List CIselbox).eraseIdx 1⟩
        (some [1, 1, 1, 17 / 2, 17 / 2, 17 / 2]) 6 3 0 0 0 0 = .ok true ∧
      isLineInBox CIselbox.isInside
        ⟨true, ([⟨0, 0, 0, 2, 2, 2⟩, ⟨8, 8, 8, 9, 9, 9⟩] : List CIselbox).eraseIdx 1 ++
          [⟨50, 50, 50, 51, 51, 51⟩]⟩
        (some [1, 1, 1, 17 / 2, 17 / 2, 17 / 2]) 6 3 0 0 0 0 = .ok false) := by
  have hall : ∀ b ∈ boxes, boxCovers isInside b buf size unit offset dx dy dz := by
    obtain ⟨b, hb, hiff⟩ := isLineInBox_spec isInside boxes buf size unit offset dx dy dz
      hsize hlen hunit hoff0 hoff hq
    rw [hb] at htrue
    injection htrue with hbt
    exact hiff.1 hbt
  refine ⟨?_, ?_, ?_⟩
  · intro idx
    obtain ⟨b, hb, hiff⟩ := isLineInBox_spec isInside (boxes.eraseIdx idx) buf size unit offset
      dx dy dz hsize hlen hunit hoff0 hoff hq
    rw [hb, hiff.2 (fun box hmem => hall box (List.mem_of_mem_eraseIdx hmem))]
  · intro box
    obtain ⟨b, hb, hiff⟩ := isLineInBox_spec isInside (boxes ++ [box]) buf size unit offset
      dx dy dz hsize hlen hunit hoff0 hoff hq
    constructor
    · intro hcov
      rw [hb, hiff.2 ?_]
      intro box' hmem
      rcases List.mem_append.1 hmem with hmem | hmem
      · exact hall box' hmem
      · rw [List.mem_singleton.1 hmem]; exact hcov
    · intro hcov
      rw [hb]
      cases b with
      | false => rfl
      | true => exact absurd (hiff.1 rfl box (by simp)) hcov
  · refine ⟨?_, ?_, ?_⟩
    · simp [isLineInBox, sdiv, boxLoop, coverLoop, readElem, vertexIndex, chk, readAt,
        CIselbox.isInside, INT_MIN, INT_MAX, bind, Except.bind, Int.tdiv]
      norm_num
    · simp [isLineInBox, sdiv, boxLoop, coverLoop, readElem, vertexIndex, chk, readAt,
        CIselbox.isInside, INT_MIN, INT_MAX, bind, Except.bind, Int.tdiv]
    · simp [isLineInBox, sdiv, boxLoop, coverLoop, readElem, vertexIndex, chk, readAt,
        CIselbox.isInside, INT_MIN, INT_MAX, bind, Except.bind, Int.tdiv]
      norm_num

theorem isLineInBox_store_antitone_witness :
    ((6 : Int) ≤ INT_MAX ∧
      (6 : Int) ≤ ([1, 1, 1, 17 / 2, 17 / 2, 17 / 2] : List ℚ).length ∧
      (3 : Int) ≤ 3 ∧ (0 : Int) ≤ 0 ∧ (0 : Int) ≤ 3 - 3 ∧ 1 ≤ Int.tdiv 6 3 ∧
      isLineInBox CIselbox.isInside ⟨true, [⟨0, 0, 0, 2, 2, 2⟩, ⟨8, 8, 8, 9, 9, 9⟩]⟩
        (some [1, 1, 1, 17 / 2, 17 / 2, 17 / 2]) 6 3 0 0 0 0 = .ok true) ∧
    ∀ idx : Nat,
      isLineInBox CIselbox.isInside
        ⟨true, ([⟨0, 0, 0, 2, 2, 2⟩, ⟨8, 8, 8, 9, 9, 9⟩] : List CIselbox).eraseIdx idx⟩
        (some [1, 1, 1, 17 / 2, 17 / 2, 17 / 2]) 6 3 0 0 0 0 = .ok true :=
  have h : isLineInBox CIselbox.isInside ⟨true, [⟨0, 0, 0, 2, 2, 2⟩, ⟨8, 8, 8, 9, 9, 9⟩]⟩
      (some [1, 1, 1, 17 / 2, 17 / 2, 17 / 2]) 6 3 0 0 0 0 = .ok true := by
    simp [isLineInBox, sdiv, boxLoop, coverLoop, readElem, vertexIndex, chk, readAt,
      CIselbox.isInside, INT_MIN, INT_MAX, bind, Except.bind, Int.tdiv]
    norm_num
  ⟨⟨by decide, by decide, by decide, by decide, by decide, by decide, h⟩,
    (isLineInBox_store_antitone CIselbox.isInside [⟨0, 0, 0, 2, 2, 2⟩, ⟨8, 8, 8, 9, 9, 9⟩]
      [1, 1, 1, 17 / 2, 17 / 2, 17 / 2] 6 3 0 0 0 0
      (by decide) (by decide) (by decide) (by decide) (by decide) (by decide) h).1⟩

/-- C7 (behaviour of the code at the failing input): with `unit = 6` and
`offset = 3` the subscripts of vertex 0 are 3, 4, 5 and those of vertex 1 are
9, 10, 11: adjacent vertices lie `unit` elements apart, not `offset`
elements. On the buffer [10, 11, ..., 15, 20, 21, ..., 25] a box around the
point (23,24,25), stored at positions 9..11, is covered, and a box around the
point (20,21,22), stored at positions 6..8, is not. -/
theorem isLineInBox_hop_is_unit :
    (vertexIndex 0 6 3 0 = .ok 3 ∧ vertexIndex 0 6 3 1 = .ok 4 ∧ vertexIndex 0 6 3 2 = .ok 5) ∧
    (vertexIndex 1 6 3 0 = .ok 9 ∧ vertexIndex 1 6 3 1 = .ok 10 ∧
      vertexIndex 1 6 3 2 = .ok 11) ∧
    isLineInBox CIselbox.isInside ⟨true, [⟨22, 23, 24, 24, 25, 26⟩]⟩
      (some [10, 11, 12, 13, 14, 15, 20, 21, 22, 23, 24, 25]) 12 6 3 0 0 0 = .ok true ∧
    isLineInBox CIselbox.isInside ⟨true, [⟨19, 20, 21, 21, 22, 23⟩]⟩
      (some [10, 11, 12, 13, 14, 15, 20, 21, 22, 23, 24, 25]) 12 6 3 0 0 0 = .ok false := by
  refine ⟨by decide, by decide, ?_, ?_⟩
  · simp [isLineInBox, sdiv, boxLoop, coverLoop, readElem, vertexIndex, chk, readAt,
      CIselbox.isInside, INT_MIN, INT_MAX, bind, Except.bind, Int.tdiv]
    norm_num
  · simp [isLineInBox, sdiv, boxLoop, coverLoop, readElem, vertexIndex, chk, readAt,
      CIselbox.isInside, INT_MIN, INT_MAX, bind, Except.bind, Int.tdiv]
    norm_num

/-- C10: in-bounds reads. With culling enabled, a buffer of exactly `size`
elements (`size` a 32-bit value), `unit ≥ 3` and `0 ≤ offset ≤ unit-3`: for
every `0 ≤ j < size/unit` and `k` in {0,1,2} the subscript `j*unit+offset+k`
is computed without leaving the 32-bit signed range at any step, satisfies
`0 ≤ index < size`, and the read at it yields an element; and the call
returns a boolean for every store, containment predicate and translation. -/
theorem isLineInBox_reads_in_bounds {T Box : Type} [Add T] (buf : List T)
    (size unit offset : Int)
    (hlen : (buf.length : Int) = size) (hsize : size ≤ INT_MAX) (hunit : 3 ≤ unit)
    (hoff0 : 0 ≤ offset) (hoff : offset ≤ unit - 3) :
    (∀ j k : Int, 0 ≤ j → j < Int.tdiv size unit → 0 ≤ k → k ≤ 2 →
        chk (j * unit) = .ok (j * unit) ∧
        chk (j * unit + offset) = .ok (j * unit + offset) ∧
        chk (j * unit + offset + k) = .ok (j * unit + offset + k) ∧
        vertexIndex j unit offset k = .ok (j * unit + offset + k) ∧
        0 ≤ j * unit + offset + k ∧ j * unit + offset + k < size ∧
        readAt buf (j * unit + offset + k) ≠ none ∧
        ∃ x, readElem buf j unit offset k = .ok x) ∧
    (∀ (isInside : Box → T → T → T → Bool) (boxes : List Box) (dx dy dz : T),
        ∃ b, isLineInBox isInside ⟨true, boxes⟩ (some buf) size unit offset dx dy dz = .ok b) := by
  constructor
  · intro j k hj0 hj hk0 hk
    obtain ⟨h1, h2, h3, h4, h5⟩ :=
      index_bounds size unit offset j k hunit hoff0 hoff hj0 hj hk0 hk
    obtain ⟨x, hx, hx2⟩ := readElem_ok buf size unit offset j k hsize (by omega) hunit hoff0 hoff
      hj0 hj hk0 hk
    refine ⟨chk_ok _ h1 (by omega), chk_ok _ (by omega) (by omega), chk_ok _ h4 (by omega),
      vertexIndex_ok size unit offset j k hsize hunit hoff0 hoff hj0 hj hk0 hk, h4, h5, ?_,
      x, hx2⟩
    rw [hx]; simp
  · intro isInside boxes dx dy dz
    by_cases hq : 1 ≤ Int.tdiv size unit
    · obtain ⟨b, hb, _⟩ := isLineInBox_spec isInside boxes buf size unit offset dx dy dz
        hsize (by omega) hunit hoff0 hoff hq
      exact ⟨b, hb⟩
    · refine ⟨false, ?_⟩
      unfold isLineInBox
      simp only [Bool.not_true, Bool.false_eq_true, if_false]
      rw [if_neg (by omega), sdiv_of_pos size unit (by omega)]
      show (if Int.tdiv size unit ≤ 0 then _ else _) = _
      rw [if_pos (by omega)]

theorem isLineInBox_reads_in_bounds_witness :
    ((([0, 0, 0, 5, 5, 5, 9, 9, 9] : List ℚ).length : Int) = 9 ∧ (9 : Int) ≤ INT_MAX ∧
      (3 : Int) ≤ 3 ∧ (0 : Int) ≤ 0 ∧ (0 : Int) ≤ 3 - 3) ∧
    ∀ (isInside : CIselbox → ℚ → ℚ → ℚ → Bool) (boxes : List CIselbox) (dx dy dz : ℚ),
      ∃ b, isLineInBox isInside ⟨true, boxes⟩ (some [0, 0, 0, 5, 5, 5, 9, 9, 9]) 9 3 0 dx dy dz =
        .ok b :=
  ⟨by decide,
    (isLineInBox_reads_in_bounds [0, 0, 0, 5, 5, 5, 9, 9, 9] 9 3 0
      (by decide) (by decide) (by decide) (by decide) (by decide)).2⟩

/-- C8: per-call translation. Over an element type with exact addition, for
every store, every buffer and every `unit ≥ 3`, `0 ≤ offset ≤ unit-3`, with
culling enabled, `isLineInBox(pline, size, unit, offset, dx, dy, dz)` equals
`isLineInBox(pline', size, unit, offset, 0, 0, 0)` where `pline'` is `pline`
with `(dx,dy,dz)` added to the three coordinates of every vertex. In
particular, on a well-formed line the default translation (0,0,0) tests the
triples stored in the buffer as they are. -/
theorem isLineInBox_translation {T Box : Type} [AddZeroClass T]
    (isInside : Box → T → T → T → Bool) (boxes : List Box) (pline : Option (List T))
    (size unit offset : Int) (dx dy dz : T)
    (hunit : 3 ≤ unit) (hoff0 : 0 ≤ offset) (hoff : offset ≤ unit - 3) :
    isLineInBox isInside ⟨true, boxes⟩ pline size unit offset dx dy dz =
      isLineInBox isInside ⟨true, boxes⟩ (translateLine size unit offset dx dy dz pline)
        size unit offset 0 0 0 ∧
    (∀ buf : List T, pline = some buf → size ≤ INT_MAX → size ≤ buf.length →
      1 ≤ Int.tdiv size unit →
      (isLineInBox isInside ⟨true, boxes⟩ pline size unit offset 0 0 0 = .ok true ↔
        ∀ box ∈ boxes, ∃ j : Int, 0 ≤ j ∧ j < Int.tdiv size unit ∧
          ∃ x y z, readAt buf (j * unit + offset + 0) = some x ∧
            readAt buf (j * unit + offset + 1) = some y ∧
            readAt buf (j * unit + offset + 2) = some z ∧ isInside box x y z = true)) := by
  refine ⟨isLineInBox_translate isInside ⟨true, boxes⟩ pline size unit offset dx dy dz
    hunit hoff0 hoff, ?_⟩
  intro buf hp hsize hlen hq
  subst hp
  obtain ⟨b, hb, hiff⟩ := isLineInBox_spec isInside boxes buf size unit offset 0 0 0
    hsize hlen hunit hoff0 hoff hq
  rw [hb]
  have hbt : (Except.ok b : Except Fault Bool) = .ok true ↔ b = true := by
    constructor
    · intro h; injection h
    · intro h; rw [h]
  rw [hbt, hiff]
  constructor
  · intro h box hmem
    obtain ⟨j, hj0, hj, x, y, z, hv, hin⟩ := h box hmem
    exact ⟨j, hj0, hj, x, y, z, ((lineVertex_zero buf unit offset j x y z).1 hv).1,
      ((lineVertex_zero buf unit offset j x y z).1 hv).2.1,
      ((lineVertex_zero buf unit offset j x y z).1 hv).2.2, hin⟩
  · intro h box hmem
    obtain ⟨j, hj0, hj, x, y, z, hx, hy, hz, hin⟩ := h box hmem
    exact ⟨j, hj0, hj, x, y, z, (lineVertex_zero buf unit offset j x y z).2 ⟨hx, hy, hz⟩, hin⟩

theorem isLineInBox_translation_witness :
    ((3 : Int) ≤ 3 ∧ (0 : Int) ≤ 0 ∧ (0 : Int) ≤ 3 - 3) ∧
    isLineInBox CIselbox.isInside ⟨true, [⟨0, 0, 0, 2, 2, 2⟩]⟩
        (some [0, 0, 0, 5, 5, 5]) 6 3 0 1 1 1 =
      isLineInBox CIselbox.isInside ⟨true, [⟨0, 0, 0, 2, 2, 2⟩]⟩
        (translateLine 6 3 0 1 1 1 (some [0, 0, 0, 5, 5, 5])) 6 3 0 0 0 0 :=
  ⟨by decide,
    (isLineInBox_translation CIselbox.isInside [⟨0, 0, 0, 2, 2, 2⟩] (some [0, 0, 0, 5, 5, 5])
      6 3 0 1 1 1 (by decide) (by decide) (by decide)).1⟩

/-- C9: `isPointInBox(x,y,z)` is true if and only if the point is inside at
least one box of the store; it is false for every point when the store is
empty; with the single box (0,0,0)-(4,4,4), the point (1,1,1) is selected and
the point (8,8,8) is not. -/
theorem isPointInBox_iff_some_box {T Box : Type} (isInside : Box → T → T → T → Bool)
    (app : CGLIBoxApp Box) (culling : Bool) (x y z : T) :
    (isPointInBox isInside app x y z = true ↔
        ∃ box ∈ app.m_boxes, isInside box x y z = true) ∧
    isPointInBox isInside ⟨culling, []⟩ x y z = false ∧
    isPointInBox CIselbox.isInside ⟨culling, [⟨0, 0, 0, 4, 4, 4⟩]⟩ 1 1 1 = true ∧
    isPointInBox CIselbox.isInside ⟨culling, [⟨0, 0, 0, 4, 4, 4⟩]⟩ 8 8 8 = false := by
  refine ⟨?_, rfl, ?_, ?_⟩
  · simp [isPointInBox, List.any_eq_true]
  · simp [isPointInBox, CIselbox.isInside]
  · simp [isPointInBox, CIselbox.isInside]
    norm_num

end CppGL
